import Mathlib

/-!
Verification of the pdf-hb repository's filename-driven ordering, grouping,
naming, merging and renaming logic, shallowly embedded from the three Python
scripts `pdf_merger.py`, `simple_pdf_merger.py` and `rename_pdfs.py`.

Modelling conventions:
* Filenames are `String`s; a source PDF is a `SrcFile` carrying its name and
  either its page list (`some pages`) or `none` when opening/reading it raises
  an exception.
* `re.findall(r'\d+', s)` is modelled by `findallDigits` over `s.data`; the
  regex class `\d` is modelled as the ASCII digits `0`-`9` (`Char.isDigit`).
* Python's arbitrary-precision `int` is `Int` (or `Nat` where the source value
  is always non-negative); `//` on possibly negative operands is `Int.fdiv`
  (floor division), and Python list slicing `l[a:b]` is `pySlice` with the
  usual negative-index wrap-around and clamping.
* Writing a file is recorded as a boolean `wrote` / an `Option` result: the
  merge helpers return `none` (no file written) exactly when the Python code
  raises before reaching the `open(..., 'wb')` call.
-/

namespace PdfHb

/-- Decimal value of a digit run, as computed by Python's `int()` on the
matched substring (e.g. `int("007") = 7`). -/
def digitsVal (ds : List Char) : Nat :=
  ds.foldl (fun a c => 10 * a + (c.toNat - '0'.toNat)) 0

/-- Fuel-indexed scanner for `findallDigits`; the fuel (an upper bound on the
list length, consumed once per character examined) only makes the recursion
structural and never runs out when `findallDigits` supplies it. -/
def findallDigitsAux : Nat → List Char → List (List Char)
  | _, [] => []
  | 0, _ :: _ => []
  | fuel + 1, c :: cs =>
    if c.isDigit then
      (c :: cs.takeWhile Char.isDigit) :: findallDigitsAux fuel (cs.dropWhile Char.isDigit)
    else
      findallDigitsAux fuel cs

/-- Model of `re.findall(r'\d+', ·)` on a list of characters: the list of all
leftmost, non-overlapping, maximal runs of decimal digits. -/
def findallDigits (l : List Char) : List (List Char) :=
  findallDigitsAux l.length l

/-- `PDFMerger._extract_number` (and the identical sort-key lambda in
`simple_pdf_merger.get_pdf_files`): `numbers = re.findall(r'\d+', filename);
return int(numbers[0]) if numbers else 0`. -/
def extractNumber (s : String) : Nat :=
  match findallDigits s.data with
  | [] => 0
  | r :: _ => digitsVal r

/-- `PDFMerger._get_pdf_files` sorting step (and `simple_pdf_merger.get_pdf_files`):
`pdf_files.sort(key=lambda x: self._extract_number(x.name))` — a stable sort of
the enumerated names ascending by extracted numeric key (Python's stable sort
is modelled by the stable `List.insertionSort`). -/
def getPdfFiles (pdfFiles : List String) : List String :=
  pdfFiles.insertionSort (fun a b => extractNumber a ≤ extractNumber b)

/-- The grouper of `batch_merge_mode` (`pdf_merger.py`) and of choice 1 in
`simple_pdf_merger.main`: `groups = (total + N - 1) // N`, and group `i` is the
slice starting at `i*N` of length `min(N, total - i*N)`. -/
def batchGroups {α : Type} (files : List α) (n : Nat) : List (List α) :=
  let total := files.length
  let groups := (total + n - 1) / n
  (List.range groups).map (fun i =>
    let startIdx := i * n
    let actualCount := min n (total - startIdx)
    (files.drop startIdx).take actualCount)

/-- Python list slicing `l[a:b]` (step 1): negative endpoints wrap around from
the end of the list, then both endpoints are clamped into `[0, len(l)]`. -/
def pySlice {α : Type} (l : List α) (a b : Int) : List α :=
  let n : Int := l.length
  let lo := (if a < 0 then max 0 (n + a) else min a n).toNat
  let hi := (if b < 0 then max 0 (n + b) else min b n).toNat
  (l.drop lo).take (hi - lo)

/-- A source PDF file: its name, and `some pages` when `PdfReader` succeeds on
it, or `none` when opening/reading it raises an exception. Pages are opaque
tokens (`Nat`). -/
structure SrcFile where
  name : String
  pages : Option (List Nat)
deriving DecidableEq

/-- Observable outcome of `PDFMerger.merge_pdfs`: the boolean return value,
whether an output file was written, the pages it contains, and the per-file
warnings printed for sources that failed to read. -/
structure MergeResult where
  ok : Bool
  wrote : Bool
  outPages : List Nat
  warnings : List String
deriving DecidableEq

/-- The body of the per-file loop in `PDFMerger.merge_pdfs`: a readable file
appends its pages to the accumulating writer; a file whose `PdfReader` raises
is caught, a warning is printed, and the loop continues. -/
def mergeStep (acc : List Nat × List String) (f : SrcFile) : List Nat × List String :=
  match f.pages with
  | some ps => (acc.1 ++ ps, acc.2)
  | none => (acc.1, acc.2 ++ ["警告: 处理文件 " ++ f.name ++ " 时出错"])

/-- `PDFMerger.merge_pdfs(start_index, count, output_name)`: rejects an
out-of-range start index, slices `pdf_files[start_index:min(start_index+count,
len)]`, rejects an empty slice, then runs the per-file loop (`mergeStep`) and
finally writes the accumulated output. -/
def mergePdfs (pdfFiles : List SrcFile) (startIndex count : Int) : MergeResult :=
  if startIndex < 0 ∨ (pdfFiles.length : Int) ≤ startIndex then
    ⟨false, false, [], []⟩
  else
    let endIndex : Int := min (startIndex + count) (pdfFiles.length : Int)
    let filesToMerge := pySlice pdfFiles startIndex endIndex
    if filesToMerge.isEmpty then
      ⟨false, false, [], []⟩
    else
      let merged := filesToMerge.foldl mergeStep ([], [])
      ⟨true, true, merged.1, merged.2⟩

/-- `simple_pdf_merger.merge_pdfs(files, output_name)`: no emptiness check and
no per-file `try`; reads every file in order and only then opens and writes the
output. Returns `some pages` when the loop completes (an output file holding
`pages` is written), and `none` when a `PdfReader` exception propagates out
before the write (no output file is created). -/
def simpleMergePdfs : List SrcFile → Option (List Nat)
  | [] => some []
  | f :: fs =>
    match f.pages with
    | none => none
    | some ps => (simpleMergePdfs fs).map (fun rest => ps ++ rest)

/-- `f"{n:03d}"`: decimal rendering of `n` left-padded with zeros to width 3
(wider numbers are rendered as-is). -/
def pad3 (n : Nat) : String :=
  let s := toString n
  String.mk (List.replicate (3 - s.length) '0') ++ s

/-- The Python-truthiness default `vol_num = volume_number if volume_number
else 1` in `PDFMerger.generate_filename`: `None` and `0` both become `1`. -/
def volNum (volumeNumber : Option Int) : Int :=
  match volumeNumber with
  | none => 1
  | some v => if v = 0 then 1 else v

/-- Python list indexing `l[i]`: negative `i` counts from the end; `none`
models an `IndexError`. -/
def pyGet {α : Type} (l : List α) (i : Int) : Option α :=
  if 0 ≤ i then l.get? i.toNat
  else if -(l.length : Int) ≤ i then l.get? ((l.length : Int) + i).toNat
  else none

/-- `PDFMerger.generate_filename(start_index, count, naming_mode,
volume_number)` over the merger's sorted name list. `end_index =
min(start_index + count, len) - 1`; the `range` and `custom` modes index
`pdf_files[start_index]` and `pdf_files[end_index]` (an `IndexError`, i.e.
`none`, propagates to the caller), `volume` uses the truthiness-defaulted
volume counter, and the fallback builds `merged_<start+1>-<end+1>`. -/
def generateFilename (pdfFiles : List String) (startIndex count : Int)
    (namingMode : String) (volumeNumber : Option Int) : Option String :=
  let endIndex : Int := min (startIndex + count) (pdfFiles.length : Int) - 1
  if namingMode = "range" then
    match pyGet pdfFiles startIndex, pyGet pdfFiles endIndex with
    | some sf, some ef =>
        some (pad3 (extractNumber sf) ++ "-" ++ pad3 (extractNumber ef) ++ ".pdf")
    | _, _ => none
  else if namingMode = "volume" then
    some ("卷" ++ toString (volNum volumeNumber) ++ ".pdf")
  else if namingMode = "custom" then
    match pyGet pdfFiles startIndex, pyGet pdfFiles endIndex with
    | some sf, some ef =>
        some ("合并版_" ++ pad3 (extractNumber sf) ++ "-" ++ pad3 (extractNumber ef) ++ ".pdf")
    | _, _ => none
  else
    some ("merged_" ++ toString (startIndex + 1) ++ "-" ++ toString (endIndex + 1) ++ ".pdf")

/-- The `N <= 0` validation of `batch_merge_mode` (`pdf_merger.py`, interactive
path): `files_per_group <= 0` prints an error and returns before any grouping;
otherwise the groups' `(start_idx, actual_count)` pairs are produced. -/
def batchMergeMode (filesPerGroup : Int) (total : Nat) : Except String (List (Int × Int)) :=
  if filesPerGroup ≤ 0 then Except.error "文件数量必须大于0"
  else
    let groups := ((total : Int) + filesPerGroup - 1).fdiv filesPerGroup
    Except.ok ((List.range groups.toNat).map (fun i =>
      ((i : Int) * filesPerGroup, min filesPerGroup ((total : Int) - (i : Int) * filesPerGroup))))

/-- `(args.volume or 1) + i` in `command_line_mode`: Python `or` treats both
`None` and `0` as absent. -/
def volArg (volume : Option Int) (i : Nat) : Int :=
  (match volume with
   | none => 1
   | some v => if v = 0 then 1 else v) + (i : Int)

/-- The per-group loop of `command_line_mode`'s batch branch: for each group
index, generate the filename (an `IndexError` there is uncaught — the second
component `true` records the crash, aborting the loop) and run
`merger.merge_pdfs`. -/
def cliBatchLoop (pdfFiles : List SrcFile) (count : Int) (naming : String)
    (volume : Option Int) : List Nat → List MergeResult × Bool
  | [] => ([], false)
  | i :: rest =>
    let startIdx : Int := (i : Int) * count
    let actualCount : Int := min count ((pdfFiles.length : Int) - startIdx)
    let fn? := if naming = "volume" then
        generateFilename (pdfFiles.map SrcFile.name) startIdx actualCount naming (some (volArg volume i))
      else
        generateFilename (pdfFiles.map SrcFile.name) startIdx actualCount naming none
    match fn? with
    | none => ([], true)
    | some _ =>
      let r := mergePdfs pdfFiles startIdx actualCount
      let res := cliBatchLoop pdfFiles count naming volume rest
      (r :: res.1, res.2)

/-- `command_line_mode`'s batch branch (taken only when `args.count` is truthy,
i.e. present and nonzero): `groups = (total + count - 1) // count` with Python
floor division, then the per-group loop over `range(groups)`. The boolean is
`true` iff an uncaught exception (crash) aborted the run. No `count <= 0`
validation exists on this path. -/
def commandLineBatch (pdfFiles : List SrcFile) (count : Int) (naming : String)
    (volume : Option Int) : List MergeResult × Bool :=
  let total := pdfFiles.length
  let groups := ((total : Int) + count - 1).fdiv count
  cliBatchLoop pdfFiles count naming volume (List.range groups.toNat)

/-- The character list `".pdf"`. -/
def pdfExt : List Char := '.' :: 'p' :: 'd' :: 'f' :: []

/-- `re.compile(r'卷(\d+)\.pdf').match(file)` in `rename_pdfs.py`: `re.match`
anchors at the START of the string only, so it succeeds whenever `卷`, a
nonempty digit run, and `.pdf` form an initial segment of the name (trailing
characters are ignored); returns the captured number. -/
def matchJuan (s : String) : Option Nat :=
  match s.data with
  | [] => none
  | c :: rest =>
    if c = '卷' then
      let ds := rest.takeWhile Char.isDigit
      if ds.isEmpty then none
      else if pdfExt.isPrefixOf (rest.dropWhile Char.isDigit) then some (digitsVal ds)
      else none
    else none

/-- Modelled from the spec claim's words "its name exactly matches the pattern
卷&lt;digits&gt;.pdf": a fully anchored variant of `matchJuan`, requiring the name to
end right after `.pdf`. Used only to compare the claim against the code's
actual start-anchored `re.match` behaviour. -/
def exactMatchJuan (s : String) : Option Nat :=
  match s.data with
  | [] => none
  | c :: rest =>
    if c = '卷' then
      let ds := rest.takeWhile Char.isDigit
      if ds.isEmpty then none
      else if rest.dropWhile Char.isDigit = pdfExt then some (digitsVal ds)
      else none
    else none

/-- The new name `f'卷{num + 2}.pdf'` computed by the rename loop. -/
def newJuanName (n : Nat) : String := "卷" ++ toString (n + 2) ++ ".pdf"

/-- One iteration of the rename loop on the directory state `fs`: a matching
file is renamed via `os.rename`, which removes the old name and installs the
new one (silently replacing an existing file of that name); non-matching files
are left alone. -/
def renameStep (fs : List String) (f : String) : List String :=
  match matchJuan f with
  | none => fs
  | some n =>
    let nf := newJuanName n
    (fs.erase f).filter (fun x => x ≠ nf) ++ [nf]

/-- Python's string comparison `a < b`: lexicographic on Unicode code points,
with a strict prefix comparing smaller. -/
def charListLt : List Char → List Char → Bool
  | [], [] => false
  | [], _ :: _ => true
  | _ :: _, [] => false
  | a :: as, b :: bs => if a < b then true else if b < a then false else charListLt as bs

/-- `sorted(os.listdir(work_dir), reverse=True)`: the directory listing in
reverse (descending) lexicographic code-point order, via a stable sort. -/
def sortedDescStrings (l : List String) : List String :=
  l.insertionSort (fun a b => charListLt a.data b.data = false)

/-- The whole `rename_pdfs.py` run: fold the rename loop over the listing in
descending name order, starting from the directory's initial contents. -/
def renameAll (listing : List String) : List String :=
  (sortedDescStrings listing).foldl renameStep listing

/-- Collision observer for the rename loop: `true` iff at every rename the
target name is absent from the directory at that moment (so no not-yet-renamed
file is overwritten). -/
def collisionFreeRun : List String → List String → Bool
  | _, [] => true
  | fs, f :: rest =>
    match matchJuan f with
    | none => collisionFreeRun fs rest
    | some n => !(fs.contains (newJuanName n)) && collisionFreeRun (renameStep fs f) rest

/-- `renameAll` performed no overwriting rename at any point. -/
def renameNoCollision (listing : List String) : Bool :=
  collisionFreeRun listing (sortedDescStrings listing)

/-! ## Helper lemmas -/

lemma findallDigitsAux_nil (f : Nat) : findallDigitsAux f [] = [] := by
  cases f <;> rfl

lemma findallDigitsAux_congr : ∀ (n : Nat) (l : List Char), l.length ≤ n →
    ∀ (f₁ f₂ : Nat), l.length ≤ f₁ → l.length ≤ f₂ →
      findallDigitsAux f₁ l = findallDigitsAux f₂ l := by
  intro n
  induction n with
  | zero =>
    intro l hl f₁ f₂ _ _
    have hnil : l = [] := List.eq_nil_of_length_eq_zero (by omega)
    subst hnil
    rw [findallDigitsAux_nil, findallDigitsAux_nil]
  | succ n ih =>
    intro l hl f₁ f₂ h1 h2
    cases l with
    | nil => rw [findallDigitsAux_nil, findallDigitsAux_nil]
    | cons c cs =>
      obtain ⟨g₁, rfl⟩ : ∃ k, f₁ = k + 1 := ⟨f₁ - 1, by simp at h1; omega⟩
      obtain ⟨g₂, rfl⟩ : ∃ k, f₂ = k + 1 := ⟨f₂ - 1, by simp at h2; omega⟩
      simp only [List.length_cons] at hl h1 h2
      have hdrop : (cs.dropWhile Char.isDigit).length ≤ cs.length :=
        (List.dropWhile_sublist Char.isDigit).length_le
      simp only [findallDigitsAux]
      by_cases hd : c.isDigit
      · rw [if_pos hd, if_pos hd,
          ih (cs.dropWhile Char.isDigit) (by omega) g₁ g₂ (by omega) (by omega)]
      · rw [if_neg hd, if_neg hd]
        exact ih cs (by omega) g₁ g₂ (by omega) (by omega)

lemma findallDigits_cons_of_digit (c : Char) (cs : List Char) (h : c.isDigit) :
    findallDigits (c :: cs) =
      (c :: cs.takeWhile Char.isDigit) :: findallDigits (cs.dropWhile Char.isDigit) := by
  unfold findallDigits
  simp only [List.length_cons, findallDigitsAux, if_pos h]
  congr 1
  exact findallDigitsAux_congr cs.length (cs.dropWhile Char.isDigit)
    (List.dropWhile_sublist Char.isDigit).length_le cs.length
    (cs.dropWhile Char.isDigit).length
    (List.dropWhile_sublist Char.isDigit).length_le (Nat.le_refl _)

lemma findallDigits_cons_of_not_digit (c : Char) (cs : List Char) (h : ¬ c.isDigit) :
    findallDigits (c :: cs) = findallDigits cs := by
  unfold findallDigits
  simp only [List.length_cons, findallDigitsAux, if_neg h]

lemma findallDigits_eq_nil (l : List Char) (h : ∀ c ∈ l, ¬ c.isDigit) :
    findallDigits l = [] := by
  induction l with
  | nil => rfl
  | cons c cs ih =>
    rw [findallDigits_cons_of_not_digit c cs (h c (by simp))]
    exact ih (fun x hx => h x (by simp [hx]))

lemma findallDigits_append_of_no_digit (pre l : List Char)
    (h : ∀ c ∈ pre, ¬ c.isDigit) : findallDigits (pre ++ l) = findallDigits l := by
  induction pre with
  | nil => rfl
  | cons c cs ih =>
    rw [List.cons_append, findallDigits_cons_of_not_digit c _ (h c (by simp))]
    exact ih (fun x hx => h x (by simp [hx]))

lemma takeWhile_digits_all (run rest : List Char) (hrun : ∀ c ∈ run, c.isDigit)
    (hrest : ∀ d ds, rest = d :: ds → ¬ d.isDigit) :
    (run ++ rest).takeWhile Char.isDigit = run := by
  have h1 : run.takeWhile Char.isDigit = run := List.takeWhile_eq_self_iff.mpr hrun
  have h2 : rest.takeWhile Char.isDigit = [] := by
    cases rest with
    | nil => rfl
    | cons d ds => simp [List.takeWhile_cons, hrest d ds rfl]
  rw [List.takeWhile_append, h1]
  simp [h2]

/-! ## C1: the numeric key extractor -/

/-- C1. For every filename string, `extractNumber` returns 0 when the string
contains no decimal digit, and otherwise returns the integer value of the
first maximal run of decimal digits: for any decomposition of the string into
a digit-free part, a nonempty digit run, and a remainder not starting with a
digit, the extracted key is the decimal value of that run. -/
theorem extract_number_spec (s : String) :
    ((∀ c ∈ s.data, ¬ c.isDigit) → extractNumber s = 0) ∧
    (∀ pre run rest : List Char, s.data = pre ++ run ++ rest →
      (∀ c ∈ pre, ¬ c.isDigit) → run ≠ [] → (∀ c ∈ run, c.isDigit) →
      (∀ d ds, rest = d :: ds → ¬ d.isDigit) →
      extractNumber s = digitsVal run) := by
  constructor
  · intro h
    have hnil : findallDigits s.data = [] := findallDigits_eq_nil s.data h
    simp [extractNumber, hnil]
  · intro pre run rest hdecomp hpre hne hrun hrest
    obtain ⟨r, rs, rfl⟩ : ∃ r rs, run = r :: rs := by
      cases run with
      | nil => exact absurd rfl hne
      | cons r rs => exact ⟨r, rs, rfl⟩
    have hr : r.isDigit := hrun r (by simp)
    have h1 : findallDigits s.data = findallDigits ((r :: rs) ++ rest) := by
      rw [hdecomp, List.append_assoc]
      exact findallDigits_append_of_no_digit pre _ hpre
    have h2 : findallDigits ((r :: rs) ++ rest) =
        (r :: (rs ++ rest).takeWhile Char.isDigit) ::
          findallDigits ((rs ++ rest).dropWhile Char.isDigit) := by
      rw [List.cons_append]
      exact findallDigits_cons_of_digit r (rs ++ rest) hr
    have h3 : (rs ++ rest).takeWhile Char.isDigit = rs :=
      takeWhile_digits_all rs rest (fun c hc => hrun c (by simp [hc])) hrest
    unfold extractNumber
    rw [h1, h2, h3]

/-- Witness for C1 at the concrete filename `ab12x3`. -/
theorem extract_number_spec_witness : extractNumber "ab12x3" = 12 := by
  have h := (extract_number_spec "ab12x3").2 ['a', 'b'] ['1', '2'] ['x', '3']
    (by decide) (by decide) (by decide) (by decide)
    (by intro d ds hd; cases hd; decide)
  simpa [digitsVal] using h

/-! ## C2: the sorter -/

/-- C2. For every list of discovered files, the sorter's output is a
permutation of the input whose extracted numeric keys are monotonic
non-decreasing from first to last element. -/
theorem sorter_spec (l : List String) :
    (getPdfFiles l).Perm l ∧
    (getPdfFiles l).Pairwise (fun a b => extractNumber a ≤ extractNumber b) := by
  constructor
  · exact List.perm_insertionSort _ l
  · haveI : IsTotal String (fun a b => extractNumber a ≤ extractNumber b) :=
      ⟨fun a b => Nat.le_total _ _⟩
    haveI : IsTrans String (fun a b => extractNumber a ≤ extractNumber b) :=
      ⟨fun _ _ _ hab hbc => Nat.le_trans hab hbc⟩
    exact List.sorted_insertionSort _ l

/-! ## C3: the grouper -/

lemma take_min_length {α : Type} (xs : List α) (m : Nat) :
    xs.take (min m xs.length) = xs.take m := by
  rcases Nat.le_total m xs.length with h | h
  · rw [Nat.min_eq_left h]
  · rw [Nat.min_eq_right h, List.take_length, List.take_of_length_le h]

lemma flatten_slices {α : Type} (n : Nat) :
    ∀ (g : Nat) (l : List α), l.length ≤ g * n →
      ((List.range g).map (fun i => (l.drop (i * n)).take n)).flatten = l := by
  intro g
  induction g with
  | zero =>
    intro l hl
    simp only [Nat.zero_mul, Nat.le_zero] at hl
    simp [List.eq_nil_of_length_eq_zero hl]
  | succ g ih =>
    intro l hl
    rw [List.range_succ_eq_map, List.map_cons, List.flatten_cons, List.map_map]
    have hmap : (List.map ((fun i => (l.drop (i * n)).take n) ∘ Nat.succ) (List.range g)) =
        (List.range g).map (fun i => ((l.drop n).drop (i * n)).take n) := by
      apply List.map_congr_left
      intro i _
      simp only [Function.comp_apply]
      rw [List.drop_drop]
      congr 2
      calc Nat.succ i * n = i * n + n := Nat.succ_mul i n
        _ = n + i * n := Nat.add_comm _ _
    have hs1 : (g + 1) * n = g * n + n := by ring
    rw [hmap, ih (l.drop n) (by rw [List.length_drop]; omega)]
    simp [List.take_append_drop]

/-- C3. For every list of length `L` and group size `N > 0`, the grouper
produces `ceil(L/N) = (L + N - 1) / N` contiguous groups in order (their
concatenation is the input list), every group has size `N` except the last,
and the last group's size is `L - N * (groups - 1)`. -/
theorem grouper_spec {α : Type} (l : List α) (n : Nat) (hn : 0 < n) :
    (batchGroups l n).length = (l.length + n - 1) / n ∧
    (batchGroups l n).flatten = l ∧
    (l ≠ [] →
      (batchGroups l n).map List.length =
        List.replicate ((l.length + n - 1) / n - 1) n ++
          [l.length - n * ((l.length + n - 1) / n - 1)]) := by
  have hdm := Nat.div_add_mod (l.length + n - 1) n
  have hmlt : (l.length + n - 1) % n < n := Nat.mod_lt _ hn
  have hng : n * ((l.length + n - 1) / n) = ((l.length + n - 1) / n) * n :=
    Nat.mul_comm _ _
  have hupper : l.length ≤ ((l.length + n - 1) / n) * n := by omega
  have hlower : ((l.length + n - 1) / n) * n ≤ l.length + n - 1 := by omega
  have hgroups_eq : ∀ i : Nat, (l.drop (i * n)).take (min n (l.length - i * n)) =
      (l.drop (i * n)).take n := by
    intro i
    have hlen : (l.drop (i * n)).length = l.length - i * n := List.length_drop _ _
    rw [← hlen, take_min_length]
  refine ⟨?_, ?_, ?_⟩
  · simp [batchGroups]
  · show ((List.range ((l.length + n - 1) / n)).map (fun i =>
        (l.drop (i * n)).take (min n (l.length - i * n)))).flatten = l
    have hmap2 : (List.range ((l.length + n - 1) / n)).map
        (fun i => (l.drop (i * n)).take (min n (l.length - i * n))) =
        (List.range ((l.length + n - 1) / n)).map (fun i => (l.drop (i * n)).take n) :=
      List.map_congr_left (fun i _ => hgroups_eq i)
    rw [hmap2]
    exact flatten_slices n _ l hupper
  · intro hne
    have hL1 : 1 ≤ l.length := List.length_pos.mpr hne
    obtain ⟨gp, hgp⟩ : ∃ gp, (l.length + n - 1) / n = gp + 1 := by
      have hpos : 0 < (l.length + n - 1) / n := Nat.div_pos (by omega) hn
      exact ⟨(l.length + n - 1) / n - 1, by omega⟩
    rw [hgp] at hupper hlower
    have hs1 : (gp + 1) * n = gp * n + n := by ring
    show ((List.range ((l.length + n - 1) / n)).map (fun i =>
        (l.drop (i * n)).take (min n (l.length - i * n)))).map List.length =
      List.replicate ((l.length + n - 1) / n - 1) n ++
        [l.length - n * ((l.length + n - 1) / n - 1)]
    rw [hgp, List.map_map, List.range_succ, List.map_append]
    simp only [Nat.add_sub_cancel]
    congr 1
    · rw [List.eq_replicate_iff]
      constructor
      · simp
      · intro b hb
        simp only [List.mem_map, List.mem_range, Function.comp_apply] at hb
        obtain ⟨i, hi, hib⟩ := hb
        rw [List.length_take, List.length_drop] at hib
        have hs2 : (i + 1) * n = i * n + n := by ring
        have hle : (i + 1) * n ≤ gp * n := Nat.mul_le_mul_right n (by omega)
        omega
    · simp only [List.map_cons, List.map_nil, Function.comp_apply]
      congr 1
      rw [List.length_take, List.length_drop]
      have hcomm : n * gp = gp * n := Nat.mul_comm _ _
      omega

/-- Witness for C3 on the three-element list `[0, 1, 2]` with group size 2. -/
theorem grouper_spec_witness :
    (batchGroups ([0, 1, 2] : List Nat) 2).flatten = [0, 1, 2] :=
  (grouper_spec [0, 1, 2] 2 (by decide)).2.1

/-! ## C4, C5, C8: the merge executors -/

lemma mergeFold_spec (sel : List SrcFile) : ∀ (ps : List Nat) (ws : List String),
    (sel.foldl mergeStep (ps, ws)).1 = ps ++ (sel.filterMap SrcFile.pages).flatten ∧
    (sel.foldl mergeStep (ps, ws)).2.length =
      ws.length + (sel.filter (fun f => f.pages.isNone)).length := by
  induction sel with
  | nil => intro ps ws; simp
  | cons f fs ih =>
    intro ps ws
    rw [List.foldl_cons]
    cases hf : f.pages with
    | none =>
      have h := ih ps (ws ++ ["警告: 处理文件 " ++ f.name ++ " 时出错"])
      have hfm : List.filterMap SrcFile.pages (f :: fs) = List.filterMap SrcFile.pages fs := by
        simp [List.filterMap_cons, hf]
      have hfilter : List.filter (fun x => x.pages.isNone) (f :: fs) =
          f :: List.filter (fun x => x.pages.isNone) fs := by
        simp [List.filter_cons, hf]
      simp only [mergeStep, hf, hfm, hfilter]
      refine ⟨h.1, ?_⟩
      rw [h.2]
      simp only [List.length_append, List.length_cons, List.length_nil]
      omega
    | some p =>
      have h := ih (ps ++ p) ws
      have hfm : List.filterMap SrcFile.pages (f :: fs) = p :: List.filterMap SrcFile.pages fs := by
        simp [List.filterMap_cons, hf]
      have hfilter : List.filter (fun x => x.pages.isNone) (f :: fs) =
          List.filter (fun x => x.pages.isNone) fs := by
        simp [List.filter_cons, hf]
      simp only [mergeStep, hf, hfm, hfilter]
      refine ⟨?_, h.2⟩
      rw [h.1]
      simp

lemma simpleMergePdfs_eq_none (files : List SrcFile)
    (h : ∃ f ∈ files, f.pages = none) : simpleMergePdfs files = none := by
  induction files with
  | nil => simp at h
  | cons f fs ih =>
    obtain ⟨g, hg, hgp⟩ := h
    rcases List.mem_cons.mp hg with rfl | hmem
    · simp [simpleMergePdfs, hgp]
    · cases hf : f.pages with
      | none => simp [simpleMergePdfs, hf]
      | some p => simp [simpleMergePdfs, hf, ih ⟨g, hmem, hgp⟩]

/-- C4, counterexample. The claim says every merge invocation with an empty
selected file list reports failure and writes no output file; but
`simple_pdf_merger.merge_pdfs` has no emptiness check: on the empty list it
completes the loop, opens the output path and writes a zero-page document,
reporting success (`some []` = an output file was written). -/
theorem merge_empty_counterexample : simpleMergePdfs [] = some [] := rfl

/-- C4, amended. A `PDFMerger.merge_pdfs` invocation whose selected slice is
empty returns `False` and writes no output file; `simple_pdf_merger.merge_pdfs`
performs no such check and, on an empty file list, writes an output file with
no pages and reports completion. -/
theorem merge_empty_amended :
    (∀ (pdfFiles : List SrcFile) (startIndex count : Int),
      pySlice pdfFiles startIndex (min (startIndex + count) (pdfFiles.length : Int)) = [] →
      (mergePdfs pdfFiles startIndex count).ok = false ∧
      (mergePdfs pdfFiles startIndex count).wrote = false) ∧
    simpleMergePdfs [] = some [] := by
  refine ⟨?_, rfl⟩
  intro files s c hsel
  by_cases h : s < 0 ∨ (files.length : Int) ≤ s
  · simp [mergePdfs, h]
  · simp [mergePdfs, h, hsel]

/-- Witness for C4 (amended) at the empty directory with `start_index = 0`,
`count = 0`. -/
theorem merge_empty_amended_witness :
    (mergePdfs [] 0 0).ok = false ∧ (mergePdfs [] 0 0).wrote = false :=
  merge_empty_amended.1 [] 0 0 (by decide)

/-- C5, counterexample. The claim says a per-file read failure is logged,
skipped, and the merge still completes and writes its output; but
`simple_pdf_merger.merge_pdfs` has no per-file `try`: a `PdfReader` failure on
`a1.pdf` propagates, aborting the whole merge before the output is opened, so
nothing is written even though `a2.pdf` is readable. -/
theorem merge_skip_counterexample :
    simpleMergePdfs [⟨"a1.pdf", none⟩, ⟨"a2.pdf", some [7]⟩] = none := rfl

/-- C5, amended. `PDFMerger.merge_pdfs` logs one warning per unreadable source
file, skips it, keeps appending the pages of all remaining files, and still
completes and writes its output; `simple_pdf_merger.merge_pdfs` instead aborts
without writing as soon as any source file fails to read. -/
theorem merge_skip_amended (pdfFiles : List SrcFile) (startIndex count : Int)
    (h1 : ¬ (startIndex < 0 ∨ (pdfFiles.length : Int) ≤ startIndex))
    (h2 : pySlice pdfFiles startIndex (min (startIndex + count) (pdfFiles.length : Int)) ≠ []) :
    (mergePdfs pdfFiles startIndex count).ok = true ∧
    (mergePdfs pdfFiles startIndex count).wrote = true ∧
    (mergePdfs pdfFiles startIndex count).outPages =
      ((pySlice pdfFiles startIndex
        (min (startIndex + count) (pdfFiles.length : Int))).filterMap SrcFile.pages).flatten ∧
    (mergePdfs pdfFiles startIndex count).warnings.length =
      ((pySlice pdfFiles startIndex
        (min (startIndex + count) (pdfFiles.length : Int))).filter
          (fun f => f.pages.isNone)).length ∧
    (∀ files : List SrcFile, (∃ f ∈ files, f.pages = none) →
      simpleMergePdfs files = none) := by
  have hmf := mergeFold_spec
    (pySlice pdfFiles startIndex (min (startIndex + count) (pdfFiles.length : Int))) [] []
  have hne : (pySlice pdfFiles startIndex
      (min (startIndex + count) (pdfFiles.length : Int))).isEmpty = false := by
    simpa [List.isEmpty_iff] using h2
  refine ⟨?_, ?_, ?_, ?_, fun files hf => simpleMergePdfs_eq_none files hf⟩ <;>
    simp [mergePdfs, h1, hne, hmf.1, hmf.2]

/-- Witness for C5 (amended): three files of which the middle one fails to
read; the merge writes pages `[1, 2, 3]` and prints exactly one warning. -/
theorem merge_skip_amended_witness :
    (mergePdfs [⟨"a", some [1]⟩, ⟨"b", none⟩, ⟨"c", some [2, 3]⟩] 0 3).ok = true ∧
    (mergePdfs [⟨"a", some [1]⟩, ⟨"b", none⟩, ⟨"c", some [2, 3]⟩] 0 3).wrote = true ∧
    (mergePdfs [⟨"a", some [1]⟩, ⟨"b", none⟩, ⟨"c", some [2, 3]⟩] 0 3).outPages =
      ((pySlice ([⟨"a", some [1]⟩, ⟨"b", none⟩, ⟨"c", some [2, 3]⟩] : List SrcFile) 0
        (min (0 + 3) ((3 : Nat) : Int))).filterMap SrcFile.pages).flatten ∧
    (mergePdfs [⟨"a", some [1]⟩, ⟨"b", none⟩, ⟨"c", some [2, 3]⟩] 0 3).warnings.length =
      ((pySlice ([⟨"a", some [1]⟩, ⟨"b", none⟩, ⟨"c", some [2, 3]⟩] : List SrcFile) 0
        (min (0 + 3) ((3 : Nat) : Int))).filter (fun f => f.pages.isNone)).length ∧
    (∀ files : List SrcFile, (∃ f ∈ files, f.pages = none) →
      simpleMergePdfs files = none) := by
  have h := merge_skip_amended [⟨"a", some [1]⟩, ⟨"b", none⟩, ⟨"c", some [2, 3]⟩] 0 3
    (by decide) (by decide)
  simpa using h

/-- C8, counterexample. The claim says a count extending past the end of the
file list is reported as an error and the merge aborted without writing; but
`merge_pdfs` clips `end_index` with `min(start_index + count, len)`: merging a
one-file list with `count = 2` succeeds and writes the output. -/
theorem merge_range_counterexample :
    mergePdfs [⟨"a1.pdf", some [5]⟩] 0 2 = ⟨true, true, [5], []⟩ := rfl

/-- C8, amended. A merge invocation whose starting index is out of range
(negative, or at/after the end of the file list) is rejected: `merge_pdfs`
returns `False` and writes no output file. A count extending past the list is
not an error: it is clipped, the invocation behaving exactly as with
`count = min(count, len - start_index)`. -/
theorem merge_range_amended (pdfFiles : List SrcFile) (startIndex count : Int) :
    ((startIndex < 0 ∨ (pdfFiles.length : Int) ≤ startIndex) →
      (mergePdfs pdfFiles startIndex count).ok = false ∧
      (mergePdfs pdfFiles startIndex count).wrote = false) ∧
    mergePdfs pdfFiles startIndex count =
      mergePdfs pdfFiles startIndex (min count ((pdfFiles.length : Int) - startIndex)) := by
  constructor
  · intro h
    simp [mergePdfs, h]
  · by_cases h : startIndex < 0 ∨ (pdfFiles.length : Int) ≤ startIndex
    · simp [mergePdfs, h]
    · have he : min (startIndex + min count ((pdfFiles.length : Int) - startIndex))
          (pdfFiles.length : Int) = min (startIndex + count) (pdfFiles.length : Int) := by
        omega
      simp [mergePdfs, h, he]

/-- Witness for C8 (amended) at a negative start index on the empty list. -/
theorem merge_range_amended_witness :
    (mergePdfs [] (-1) 0).ok = false ∧ (mergePdfs [] (-1) 0).wrote = false :=
  (merge_range_amended [] (-1) 0).1 (Or.inl (by decide))

/-! ## C6: the rename executor -/

lemma dropWhile_digits_all (run rest : List Char) (hrun : ∀ c ∈ run, c.isDigit)
    (hrest : ∀ d ds, rest = d :: ds → ¬ d.isDigit) :
    (run ++ rest).dropWhile Char.isDigit = rest := by
  have h1 : run.dropWhile Char.isDigit = [] := by
    rw [List.dropWhile_eq_nil_iff]
    intro x hx
    exact hrun x hx
  rw [List.dropWhile_append, h1]
  simp only [List.isEmpty_nil, if_true]
  cases rest with
  | nil => rfl
  | cons d ds' =>
    rw [List.dropWhile_cons]
    simp [hrest d ds' rfl]

lemma matchJuan_mk (c : Char) (rest : List Char) :
    matchJuan (String.mk (c :: rest)) =
      if c = '卷' then
        (if (rest.takeWhile Char.isDigit).isEmpty then none
         else if pdfExt.isPrefixOf (rest.dropWhile Char.isDigit) then
           some (digitsVal (rest.takeWhile Char.isDigit))
         else none)
      else none := rfl

/-- C6, counterexample. The claim says the rename executor renames a file if
and only if its name exactly matches `卷<digits>.pdf`; but the script uses
`re.match`, which only anchors at the start: `卷1.pdfX` does not exactly match
the pattern, yet a directory containing just that file ends up as `卷3.pdf` —
the file was renamed. -/
theorem rename_exact_counterexample :
    exactMatchJuan "卷1.pdfX" = none ∧ renameAll ["卷1.pdfX"] = ["卷3.pdf"] := by
  constructor
  · decide
  · decide

/-- C6, amended. Scanning in reverse lexicographic order, the rename executor
renames a file iff the pattern `卷<digits>.pdf` matches a PREFIX of its name
(`re.match` semantics) — any name of the shape `卷` + digits + `.pdf` +
anything is renamed to `卷(N+2).pdf`, and a non-matching name is left alone —
and on a directory containing exactly `卷1.pdf` and `卷2.pdf` the result is
`卷3.pdf` and `卷4.pdf` with no intermediate name collision (no rename target
ever coincides with an existing, not-yet-renamed file). -/
theorem rename_spec_amended :
    (∀ (ds t : List Char), ds ≠ [] → (∀ c ∈ ds, c.isDigit) →
      matchJuan (String.mk ('卷' :: (ds ++ pdfExt ++ t))) = some (digitsVal ds)) ∧
    (∀ s : String, matchJuan s = none → ∀ fs : List String, renameStep fs s = fs) ∧
    renameAll ["卷1.pdf", "卷2.pdf"] = ["卷4.pdf", "卷3.pdf"] ∧
    renameNoCollision ["卷1.pdf", "卷2.pdf"] = true := by
  refine ⟨?_, ?_, by decide, by decide⟩
  · intro ds t hne hdig
    have hrest : ∀ d ds', pdfExt ++ t = d :: ds' → ¬ d.isDigit := by
      intro d ds' h
      have hpe : pdfExt ++ t = '.' :: (('p' :: 'd' :: 'f' :: []) ++ t) := rfl
      rw [hpe] at h
      cases h
      decide
    have htake := takeWhile_digits_all ds (pdfExt ++ t) hdig hrest
    have hdrop := dropWhile_digits_all ds (pdfExt ++ t) hdig hrest
    rw [List.append_assoc, matchJuan_mk, if_pos rfl, htake, hdrop]
    have hne' : ds.isEmpty = false := by
      cases ds with
      | nil => exact absurd rfl hne
      | cons a as => rfl
    rw [hne']
    simp only [Bool.false_eq_true, if_false]
    rw [if_pos]
    exact List.isPrefixOf_iff_prefix.mpr (List.prefix_append _ _)
  · intro s h fs
    simp [renameStep, h]

/-- Witness for C6 (amended): the digit run `['1']` followed by `.pdf` and a
trailing `X` is matched with captured value `digitsVal ['1'] = 1`. -/
theorem rename_spec_amended_witness :
    matchJuan (String.mk ('卷' :: (['1'] ++ pdfExt ++ ['X']))) = some (digitsVal ['1']) :=
  rename_spec_amended.1 ['1'] ['X'] (by decide) (by decide)

/-! ## C7: group size N ≤ 0 -/

/-- C7. The interactive batch prompt of `pdf_merger.py` does reject
`N ≤ 0` with an error message; but the command-line `--count` flag performs no
such validation: with exactly one PDF in the folder and `--count -2`, the
batch branch computes `groups = 1` and `generate_filename` then evaluates
`pdf_files[-3]`, raising an uncaught `IndexError` — the program crashes with a
traceback (modelled by the `true` crash flag) instead of reporting an error. -/
theorem cli_negative_count_crash :
    batchMergeMode (-2) 1 = Except.error "文件数量必须大于0" ∧
    commandLineBatch [⟨"a1.pdf", some [1]⟩] (-2) "range" none = ([], true) := by
  constructor
  · rfl
  · rfl

/-! ## C9: grouping and range naming on a1/a2/a3 -/

/-- C9. For the sorted list `a1.pdf` (key 1), `a2.pdf` (key 2), `a3.pdf`
(key 3) and group size 2, the grouper yields `[a1, a2]` and `[a3]`, and range
naming of the two groups yields `001-002.pdf` and `003-003.pdf`. -/
theorem group_range_naming :
    batchGroups ["a1.pdf", "a2.pdf", "a3.pdf"] 2 = [["a1.pdf", "a2.pdf"], ["a3.pdf"]] ∧
    generateFilename ["a1.pdf", "a2.pdf", "a3.pdf"] 0 2 "range" none = some "001-002.pdf" ∧
    generateFilename ["a1.pdf", "a2.pdf", "a3.pdf"] 2 1 "range" none = some "003-003.pdf" := by
  refine ⟨by decide, by decide, by decide⟩

/-! ## C10: volume naming with a zero or missing volume number -/

/-- C10. In volume mode, a volume number of `0` (or no volume number at all)
is silently replaced by `1` via Python truthiness: the generated name is
`卷1.pdf` for every file list and index range, not `卷0.pdf` and not an
error. -/
theorem volume_naming_default (pdfFiles : List String) (startIndex count : Int) :
    generateFilename pdfFiles startIndex count "volume" (some 0) = some "卷1.pdf" ∧
    generateFilename pdfFiles startIndex count "volume" none = some "卷1.pdf" := by
  constructor
  · rfl
  · rfl

end PdfHb
